import Mathlib

/-!
Verification of the Markdown-to-HTML converter in `md_to_html.py`.

The converter is a pipeline of Python `re.sub` passes.  We embed the exact
regular expressions of the source as a small regex AST together with a
backtracking matcher that mirrors Python `re` semantics for the constructs
actually used by the program:

* all quantifiers in the source (`\s*`, `.*`, `\d+`, `[ \t]+`, `[^\n]+`)
  apply to single-character classes, and are greedy: the matcher first tries
  the maximal run and backtracks one character at a time;
* alternation tries its branches left to right;
* `^` (without `re.MULTILINE`) matches only at absolute position 0;
* `.` does not match a newline (no `re.DOTALL`);
* `re.sub` scans positions left to right, replaces the leftmost match,
  and resumes scanning right after the matched region.

Character classes `\s` and `\d` are modelled by their ASCII meaning
(all inputs in the repository and its doctests are ASCII).
-/

set_option maxRecDepth 100000

namespace PyMark

/-- Capture-group environment: group number to captured characters. -/
def GMap : Type := Nat → List Char

def g0 : GMap := fun _ => []

def gset (n : Nat) (v : List Char) (g : GMap) : GMap :=
  fun m => if m = n then v else g m

/-- Regex AST covering exactly the constructs used in `md_to_html.py`. -/
inductive RE : Type
  | eps : RE
  | chr : Char → RE
  | bol : RE
  | star : (Char → Bool) → RE
  | plus : (Char → Bool) → RE
  | alt : RE → RE → RE
  | seq : RE → RE → RE
  | grp : Nat → RE → RE

/-- Literal string as a sequence of literal characters. -/
def strRE : List Char → RE
  | [] => .eps
  | c :: cs => .seq (.chr c) (strRE cs)

/-- Greedy backtracking for a class star: try consuming `i` characters of the
maximal run, longest first, down to zero. -/
def tryDown (k : List Char → Nat → GMap → Option (Nat × GMap))
    (cs : List Char) (pos : Nat) (g : GMap) : Nat → Option (Nat × GMap)
  | 0 => k cs pos g
  | i + 1 =>
      match k (cs.drop (i + 1)) (pos + (i + 1)) g with
      | some r => some r
      | none => tryDown k cs pos g i

/-- Greedy backtracking for a class plus: like `tryDown` but at least one
character must be consumed. -/
def tryDown1 (k : List Char → Nat → GMap → Option (Nat × GMap))
    (cs : List Char) (pos : Nat) (g : GMap) : Nat → Option (Nat × GMap)
  | 0 => none
  | i + 1 =>
      match k (cs.drop (i + 1)) (pos + (i + 1)) g with
      | some r => some r
      | none => tryDown1 k cs pos g i

/-- CPS backtracking matcher.  `matchRe r cs pos g k` tries to match `r`
against a prefix of `cs` (which is the input suffix starting at absolute
position `pos`), extending capture map `g`, and calls the continuation `k`
with the rest, the new position and the new capture map.  The first success
in Python's backtracking order wins. -/
def matchRe : RE → List Char → Nat → GMap →
    (List Char → Nat → GMap → Option (Nat × GMap)) → Option (Nat × GMap)
  | .eps, cs, pos, g, k => k cs pos g
  | .chr c, cs, pos, g, k =>
      match cs with
      | [] => none
      | x :: xs => if x = c then k xs (pos + 1) g else none
  | .bol, cs, pos, g, k => if pos = 0 then k cs pos g else none
  | .star p, cs, pos, g, k => tryDown k cs pos g (cs.takeWhile p).length
  | .plus p, cs, pos, g, k => tryDown1 k cs pos g (cs.takeWhile p).length
  | .alt a b, cs, pos, g, k =>
      match matchRe a cs pos g k with
      | some r => some r
      | none => matchRe b cs pos g k
  | .seq a b, cs, pos, g, k =>
      matchRe a cs pos g (fun cs1 pos1 g1 => matchRe b cs1 pos1 g1 k)
  | .grp n r, cs, pos, g, k =>
      matchRe r cs pos g
        (fun cs1 pos1 g1 => k cs1 pos1 (gset n (cs.take (pos1 - pos)) g1))

/-- Top continuation: accept whatever the regex matched. -/
def topk : List Char → Nat → GMap → Option (Nat × GMap) :=
  fun _ pos g => some (pos, g)

/-- `re.sub` scanning loop: try a match at each position, left to right;
on a match, emit the expanded replacement and resume after the match
(advancing one extra character when the match is empty, as Python does).
The fuel argument is only a structural-termination device; `reSub` supplies
enough fuel that it is never exhausted. -/
def subAux (r : RE) (repl : GMap → List Char) : Nat → List Char → Nat → List Char
  | 0, cs, _ => cs
  | _ + 1, [], pos =>
      match matchRe r [] pos g0 topk with
      | some (_, g) => repl g
      | none => []
  | fuel + 1, c :: rest, pos =>
      match matchRe r (c :: rest) pos g0 topk with
      | some (pos2, g) =>
          if pos2 - pos = 0 then repl g ++ c :: subAux r repl fuel rest (pos + 1)
          else repl g ++ subAux r repl fuel (rest.drop (pos2 - pos - 1)) pos2
      | none => c :: subAux r repl fuel rest (pos + 1)

/-- Python `re.sub pattern repl input`. -/
def reSub (r : RE) (repl : GMap → List Char) (cs : List Char) : List Char :=
  subAux r repl (cs.length + 1) cs 0

/-! ### Character classes (`\s`, `\d`, `.`/`[^\n]`, `[ \t]`) -/

/-- Python `\s` (ASCII part). -/
def isPySpace (c : Char) : Bool :=
  c == ' ' || c == '\t' || c == '\n' || c == '\r' || c == '\x0b' || c == '\x0c'

/-- Python `\d` (ASCII part). -/
def isPyDigit (c : Char) : Bool := '0' ≤ c && c ≤ '9'

/-- `.` without `re.DOTALL`, and the class `[^\n]`. -/
def notNL (c : Char) : Bool := c != '\n'

/-- The class `[ \t]`. -/
def isHSpace (c : Char) : Bool := c == ' ' || c == '\t'

/-! ### The `paragraphs` stage
`re.sub(r'\n\s*\n', '</p>\n<p>', corpus)` then `f'<p>{...}</p>'`. -/

def paraRE : RE := .seq (.chr '\n') (.seq (.star isPySpace) (.chr '\n'))

def paraRepl : GMap → List Char := fun _ => "</p>\n<p>".data

def innerParasL : List Char → List Char := reSub paraRE paraRepl

def paragraphsL (cs : List Char) : List Char :=
  "<p>".data ++ innerParasL cs ++ "</p>".data

/-! ### The `lists` stage
Six `re.sub` passes, in the order of the source. -/

/-- `(-|\+|\*) (.*)` -/
def ulRE : RE :=
  .seq (.grp 1 (.alt (.chr '-') (.alt (.chr '+') (.chr '*'))))
    (.seq (.chr ' ') (.grp 2 (.star notNL)))

/-- replacement `<ul><li>\g<2></li></ul>` -/
def ulRepl : GMap → List Char := fun g => "<ul><li>".data ++ g 2 ++ "</li></ul>".data

/-- `(\d+\.) (.*)` -/
def olRE : RE :=
  .seq (.grp 1 (.seq (.plus isPyDigit) (.chr '.')))
    (.seq (.chr ' ') (.grp 2 (.star notNL)))

/-- replacement `<ol><li>\g<2></li></ol>` -/
def olRepl : GMap → List Char := fun g => "<ol><li>".data ++ g 2 ++ "</li></ol>".data

/-- `</ul>\n(.*)<ol>` -/
def sepUlOlRE : RE :=
  .seq (strRE "</ul>\n".data) (.seq (.grp 1 (.star notNL)) (strRE "<ol>".data))

/-- replacement `</ul>\n\n\g<1><ol>` -/
def sepUlOlRepl : GMap → List Char := fun g => "</ul>\n\n".data ++ g 1 ++ "<ol>".data

/-- `</ol>\n(.*)<ul>` -/
def sepOlUlRE : RE :=
  .seq (strRE "</ol>\n".data) (.seq (.grp 1 (.star notNL)) (strRE "<ul>".data))

/-- replacement `</ol>\n\n\g<1><ul>` -/
def sepOlUlRepl : GMap → List Char := fun g => "</ol>\n\n".data ++ g 1 ++ "<ul>".data

/-- `</ul>\n(.*)<ul>` (merge pass; the replacement drops the group). -/
def mergeUlRE : RE :=
  .seq (strRE "</ul>\n".data) (.seq (.grp 1 (.star notNL)) (strRE "<ul>".data))

/-- `</ol>\n(.*)<ol>` (merge pass; the replacement drops the group). -/
def mergeOlRE : RE :=
  .seq (strRE "</ol>\n".data) (.seq (.grp 1 (.star notNL)) (strRE "<ol>".data))

/-- replacement `'\n'` used by both merge passes. -/
def nlRepl : GMap → List Char := fun _ => ['\n']

def ulWrapStep : List Char → List Char := reSub ulRE ulRepl
def olWrapStep : List Char → List Char := reSub olRE olRepl
def sepUlOlStep : List Char → List Char := reSub sepUlOlRE sepUlOlRepl
def sepOlUlStep : List Char → List Char := reSub sepOlUlRE sepOlUlRepl
def ulMergeStep : List Char → List Char := reSub mergeUlRE nlRepl
def olMergeStep : List Char → List Char := reSub mergeOlRE nlRepl

def listsL (cs : List Char) : List Char :=
  olMergeStep (ulMergeStep (sepOlUlStep (sepUlOlStep (olWrapStep (ulWrapStep cs)))))

/-! ### The `italics` and `bold` stages -/

/-- `\*([^\n]+)\*` -/
def italRE : RE := .seq (.chr '*') (.seq (.grp 1 (.plus notNL)) (.chr '*'))

/-- replacement `<em>\g<1></em>` -/
def italRepl : GMap → List Char := fun g => "<em>".data ++ g 1 ++ "</em>".data

def italicsL : List Char → List Char := reSub italRE italRepl

/-- `\*\*([^\n]+)\*\*` -/
def boldRE : RE :=
  .seq (strRE "**".data) (.seq (.grp 1 (.plus notNL)) (strRE "**".data))

/-- replacement `<strong>\g<1></strong>` -/
def boldRepl : GMap → List Char := fun g => "<strong>".data ++ g 1 ++ "</strong>".data

def boldL : List Char → List Char := reSub boldRE boldRepl

/-! ### The `headers` stage
`for i in range(6, 0, -1): corpus = re.sub(r'(^|\n)' + f'({"#"*i})' + '[ \t]+([^\n]+)', fr'\g<1><h{i}>\g<3></h{i}>', corpus)` -/

/-- `(^|\n)(#...#)[ \t]+([^\n]+)` with `i` hash characters. -/
def hdrRE (i : Nat) : RE :=
  .seq (.grp 1 (.alt .bol (.chr '\n')))
    (.seq (.grp 2 (strRE (List.replicate i '#')))
      (.seq (.plus isHSpace) (.grp 3 (.plus notNL))))

/-- replacement `\g<1><h{i}>\g<3></h{i}>` -/
def hdrRepl (i : Nat) : GMap → List Char :=
  fun g =>
    g 1 ++ ('<' :: 'h' :: Char.ofNat (48 + i) :: '>' :: [])
      ++ g 3 ++ ('<' :: '/' :: 'h' :: Char.ofNat (48 + i) :: '>' :: [])

def headersL (cs : List Char) : List Char :=
  [6, 5, 4, 3, 2, 1].foldl (fun acc i => reSub (hdrRE i) (hdrRepl i) acc) cs

/-! ### The `html` pipeline and string-level wrappers -/

def htmlL (cs : List Char) : List Char :=
  "<article>".data ++ paragraphsL (listsL (italicsL (boldL (headersL cs)))) ++ "</article>".data

def paragraphs (s : String) : String := ⟨paragraphsL s.data⟩
def lists (s : String) : String := ⟨listsL s.data⟩
def italics (s : String) : String := ⟨italicsL s.data⟩
def bold (s : String) : String := ⟨boldL s.data⟩
def headers (s : String) : String := ⟨headersL s.data⟩
def html (s : String) : String := ⟨htmlL s.data⟩

/-! ### Scanning predicates
Decidable characterisations of "this pattern can fire somewhere in the
buffer", used to state which inputs the individual passes leave unchanged. -/

/-- `beginsWith pat cs`: `pat` is an initial segment of `cs`. -/
def beginsWith : List Char → List Char → Bool
  | [], _ => true
  | _ :: _, [] => false
  | p :: ps, c :: cs => p == c && beginsWith ps cs

/-- `containsSeq pat cs`: `pat` occurs as a contiguous segment of `cs`. -/
def containsSeq (pat : List Char) : List Char → Bool
  | [] => beginsWith pat []
  | c :: t => beginsWith pat (c :: t) || containsSeq pat t

/-- `hasOlMark cs`: some position of `cs` holds a digit immediately followed
by `'.'` and `' '` — exactly the positions where the ordered-item pattern
`(\d+\.) (.*)` of the source can start matching its suffix. -/
def hasOlMark : List Char → Bool
  | a :: b :: c :: rest => (isPyDigit a && b == '.' && c == ' ') || hasOlMark (b :: c :: rest)
  | _ => false

/-! ### Matcher lemmas -/

theorem tryDown_exact {k : List Char → Nat → GMap → Option (Nat × GMap)}
    {cs : List Char} {pos : Nat} {g : GMap} {r : Nat × GMap} (i : Nat)
    (h : k (cs.drop i) (pos + i) g = some r) : tryDown k cs pos g i = some r := by
  cases i with
  | zero => simp only [tryDown]; simpa using h
  | succ j => simp [tryDown, h]

theorem tryDown1_exact {k : List Char → Nat → GMap → Option (Nat × GMap)}
    {cs : List Char} {pos : Nat} {g : GMap} {r : Nat × GMap} (j : Nat)
    (h : k (cs.drop (j + 1)) (pos + (j + 1)) g = some r) :
    tryDown1 k cs pos g (j + 1) = some r := by
  simp [tryDown1, h]

theorem tryDown_step {k : List Char → Nat → GMap → Option (Nat × GMap)}
    {cs : List Char} {pos : Nat} {g : GMap} (i : Nat)
    (h : k (cs.drop (i + 1)) (pos + (i + 1)) g = none) :
    tryDown k cs pos g (i + 1) = tryDown k cs pos g i := by
  simp [tryDown, h]

theorem tryDown1_step {k : List Char → Nat → GMap → Option (Nat × GMap)}
    {cs : List Char} {pos : Nat} {g : GMap} (i : Nat)
    (h : k (cs.drop (i + 1)) (pos + (i + 1)) g = none) :
    tryDown1 k cs pos g (i + 1) = tryDown1 k cs pos g i := by
  simp [tryDown1, h]

theorem tryDown1_some {k : List Char → Nat → GMap → Option (Nat × GMap)}
    {cs : List Char} {pos : Nat} {g : GMap} {r : Nat × GMap} :
    ∀ n, tryDown1 k cs pos g n = some r →
      ∃ i, 1 ≤ i ∧ i ≤ n ∧ k (cs.drop i) (pos + i) g = some r := by
  intro n
  induction n with
  | zero => intro h; simp [tryDown1] at h
  | succ m ih =>
    intro h
    simp only [tryDown1] at h
    cases hk : k (cs.drop (m + 1)) (pos + (m + 1)) g with
    | some r2 =>
      rw [hk] at h
      simp only at h
      exact ⟨m + 1, by omega, Nat.le_refl _, by rw [hk, h]⟩
    | none =>
      rw [hk] at h
      simp only at h
      obtain ⟨i, h1, h2, h3⟩ := ih h
      exact ⟨i, h1, by omega, h3⟩

theorem matchRe_strRE_begins :
    ∀ (pat cs : List Char) (pos : Nat) (g : GMap)
      (k : List Char → Nat → GMap → Option (Nat × GMap)) (r : Nat × GMap),
      matchRe (strRE pat) cs pos g k = some r → beginsWith pat cs = true := by
  intro pat
  induction pat with
  | nil => intro cs pos g k r _; rfl
  | cons p ps ih =>
    intro cs pos g k r h
    cases cs with
    | nil => simp [strRE, matchRe] at h
    | cons c cs' =>
      simp only [strRE, matchRe] at h
      by_cases hc : c = p
      · subst hc
        rw [if_pos rfl] at h
        simpa [beginsWith] using ih cs' (pos + 1) g k r h
      · rw [if_neg hc] at h
        exact absurd h (by simp)

theorem beginsWith_append_left :
    ∀ (p q cs : List Char), beginsWith (p ++ q) cs = true → beginsWith p cs = true := by
  intro p
  induction p with
  | nil => intro q cs _; rfl
  | cons a p' ih =>
    intro q cs h
    cases cs with
    | nil => simp [beginsWith] at h
    | cons c cs' =>
      simp only [List.cons_append, beginsWith, Bool.and_eq_true] at h ⊢
      exact ⟨h.1, ih q cs' h.2⟩

theorem containsSeq_of_begins {pat cs : List Char}
    (h : beginsWith pat cs = true) : containsSeq pat cs = true := by
  cases cs with
  | nil => simpa [containsSeq] using h
  | cons c t => simp [containsSeq, h]

theorem containsSeq_tail {pat : List Char} {c : Char} {t : List Char}
    (h : containsSeq pat (c :: t) = false) : containsSeq pat t = false := by
  simp only [containsSeq, Bool.or_eq_false_iff] at h
  exact h.2

theorem hasOlMark_tail {c : Char} {t : List Char}
    (h : hasOlMark (c :: t) = false) : hasOlMark t = false := by
  match t with
  | [] => rfl
  | [a] => rfl
  | a :: b :: rest =>
    simp only [hasOlMark, Bool.or_eq_false_iff] at h
    exact h.2

/-- If no match is possible at any position, `subAux` copies its input. -/
theorem subAux_id {r : RE} {repl : GMap → List Char} (P : List Char → Prop)
    (hstep : ∀ c t, P (c :: t) → P t)
    (hm : ∀ cs pos, P cs → matchRe r cs pos g0 topk = none) :
    ∀ (fuel : Nat) (cs : List Char) (pos : Nat), P cs → subAux r repl fuel cs pos = cs := by
  intro fuel
  induction fuel with
  | zero => intro cs pos _; rfl
  | succ n ih =>
    intro cs pos hP
    cases cs with
    | nil => simp [subAux, hm [] pos hP]
    | cons c rest =>
      simp [subAux, hm (c :: rest) pos hP, ih rest (pos + 1) (hstep c rest hP)]

theorem reSub_id {r : RE} {repl : GMap → List Char} (P : List Char → Prop)
    (hstep : ∀ c t, P (c :: t) → P t)
    (hm : ∀ cs pos, P cs → matchRe r cs pos g0 topk = none)
    {cs : List Char} (h : P cs) : reSub r repl cs = cs :=
  subAux_id P hstep hm _ cs 0 h

/-- `subAux` on the empty buffer emits nothing when the pattern cannot match
the empty suffix. -/
theorem subAux_nil_none {r : RE} {repl : GMap → List Char} {pos : Nat}
    (h : matchRe r [] pos g0 topk = none) :
    ∀ fuel, subAux r repl fuel [] pos = [] := by
  intro fuel
  cases fuel with
  | zero => rfl
  | succ n => simp [subAux, h]

/-! ### Which buffers each pass leaves unchanged -/

/-- A match of a pattern that opens with a literal string must start with that
string.  (`matchRe (.seq (strRE pat) x)` unfolds definitionally to
`matchRe (strRE pat)` with a larger continuation.) -/
theorem matchRe_seq_str_begins {pat : List Char} {x : RE} {cs : List Char}
    {pos : Nat} {g : GMap} {k : List Char → Nat → GMap → Option (Nat × GMap)}
    {r : Nat × GMap}
    (h : matchRe (.seq (strRE pat) x) cs pos g k = some r) :
    beginsWith pat cs = true :=
  matchRe_strRE_begins pat cs pos g _ r h

theorem begins_cons_mem {p : Char} {ps cs : List Char}
    (h : beginsWith (p :: ps) cs = true) : p ∈ cs := by
  cases cs with
  | nil => simp [beginsWith] at h
  | cons c t =>
    simp only [beginsWith, Bool.and_eq_true, beq_iff_eq] at h
    rw [h.1]
    exact List.mem_cons_self c t

theorem matchRe_bold_none {cs : List Char} (h : '*' ∉ cs) (pos : Nat) :
    matchRe boldRE cs pos g0 topk = none := by
  cases hm : matchRe boldRE cs pos g0 topk with
  | none => rfl
  | some r =>
    exact absurd (begins_cons_mem (p := '*') (matchRe_seq_str_begins hm)) h

theorem matchRe_ital_none {cs : List Char} (h : '*' ∉ cs) (pos : Nat) :
    matchRe italRE cs pos g0 topk = none := by
  cases cs with
  | nil => rfl
  | cons c t =>
    have hc : ¬(c = '*') := fun e => h (e ▸ List.mem_cons_self c t)
    simp [italRE, matchRe, hc]

theorem matchRe_ul_none {cs : List Char}
    (h1 : '-' ∉ cs) (h2 : '+' ∉ cs) (h3 : '*' ∉ cs) (pos : Nat) :
    matchRe ulRE cs pos g0 topk = none := by
  cases cs with
  | nil => rfl
  | cons c t =>
    have d1 : ¬(c = '-') := fun e => h1 (e ▸ List.mem_cons_self c t)
    have d2 : ¬(c = '+') := fun e => h2 (e ▸ List.mem_cons_self c t)
    have d3 : ¬(c = '*') := fun e => h3 (e ▸ List.mem_cons_self c t)
    simp [ulRE, matchRe, d1, d2, d3]

/-- A successful match of the ordered-item pattern produces a digit/period/space
triple in the buffer. -/
theorem matchRe_ol_none {cs : List Char} (h : hasOlMark cs = false) (pos : Nat) :
    matchRe olRE cs pos g0 topk = none := by
  cases hm : matchRe olRE cs pos g0 topk with
  | none => rfl
  | some r =>
    exfalso
    have hm2 : tryDown1
        (fun cs2 pos2 g2 => matchRe (.chr '.') cs2 pos2 g2
          (fun cs3 pos3 g3 =>
            matchRe (.seq (.chr ' ') (.grp 2 (.star notNL))) cs3 pos3
              (gset 1 (cs.take (pos3 - pos)) g3) topk))
        cs pos g0 (cs.takeWhile isPyDigit).length = some r := by
      simpa only [olRE, matchRe] using hm
    obtain ⟨i, hi1, hi2, hk⟩ := tryDown1_some _ hm2
    -- the continuation forces '.' then ' ' right after the digit run
    have hshape : ∃ cs3, cs.drop i = '.' :: ' ' :: cs3 := by
      cases hd : cs.drop i with
      | nil => rw [hd] at hk; simp [matchRe] at hk
      | cons a rest =>
        rw [hd] at hk
        simp only [matchRe] at hk
        by_cases ha : a = '.'
        · subst ha
          rw [if_pos rfl] at hk
          cases rest with
          | nil => simp [matchRe] at hk
          | cons b rest2 =>
            simp only [matchRe] at hk
            by_cases hb : b = ' '
            · exact ⟨rest2, by rw [hb]⟩
            · rw [if_neg hb] at hk; exact absurd hk (by simp)
        · rw [if_neg ha] at hk; exact absurd hk (by simp)
    -- position i - 1 holds a digit, so the triple is in the buffer
    have htrip : ∀ (j : Nat) (l : List Char), 1 ≤ j → j ≤ (l.takeWhile isPyDigit).length →
        (∃ l3, l.drop j = '.' :: ' ' :: l3) → hasOlMark l = true := by
      intro j
      induction j with
      | zero => intro l hj; omega
      | succ n ihn =>
        intro l hj hlen hex
        cases l with
        | nil => simp at hlen
        | cons a l' =>
          have hda : isPyDigit a = true := by
            by_contra hna
            simp [List.takeWhile, Bool.not_eq_true] at hlen hna
            rw [hna] at hlen
            simp at hlen
          rw [List.takeWhile] at hlen
          rw [hda] at hlen
          simp only [List.length_cons] at hlen
          cases n with
          | zero =>
            obtain ⟨l3, hl3⟩ := hex
            simp only [List.drop_succ_cons, List.drop_zero] at hl3
            subst hl3
            simp [hasOlMark, hda]
          | succ m =>
            have : hasOlMark l' = true := by
              apply ihn l' (by omega) (by omega)
              obtain ⟨l3, hl3⟩ := hex
              exact ⟨l3, by simpa using hl3⟩
            obtain ⟨l3, hl3⟩ := hex
            have hlong : ∃ b c2 rest, l' = b :: c2 :: rest := by
              cases l' with
              | nil => simp at hl3
              | cons b l'' =>
                cases l'' with
                | nil =>
                  rw [List.drop_succ_cons] at hl3
                  cases m with
                  | zero => simp at hl3
                  | succ m2 => simp at hl3
                | cons c2 rest => exact ⟨b, c2, rest, rfl⟩
            obtain ⟨b, c2, rest, rfl⟩ := hlong
            simp only [hasOlMark, Bool.or_eq_true]
            exact Or.inr this
    rw [htrip i cs hi1 hi2 hshape] at h
    exact absurd h (by simp)

theorem begins_newline_drop {t cs : List Char}
    (h : beginsWith (t ++ ['\n']) cs = true) : containsSeq t cs = true :=
  containsSeq_of_begins (beginsWith_append_left t ['\n'] cs h)

theorem matchRe_sepUlOl_none {cs : List Char}
    (h : containsSeq "</ul>".data cs = false) (pos : Nat) :
    matchRe sepUlOlRE cs pos g0 topk = none := by
  cases hm : matchRe sepUlOlRE cs pos g0 topk with
  | none => rfl
  | some r =>
    rw [begins_newline_drop (t := "</ul>".data) (matchRe_seq_str_begins hm)] at h
    exact absurd h (by simp)

theorem matchRe_sepOlUl_none {cs : List Char}
    (h : containsSeq "</ol>".data cs = false) (pos : Nat) :
    matchRe sepOlUlRE cs pos g0 topk = none := by
  cases hm : matchRe sepOlUlRE cs pos g0 topk with
  | none => rfl
  | some r =>
    rw [begins_newline_drop (t := "</ol>".data) (matchRe_seq_str_begins hm)] at h
    exact absurd h (by simp)

theorem matchRe_mergeUl_none {cs : List Char}
    (h : containsSeq "</ul>".data cs = false) (pos : Nat) :
    matchRe mergeUlRE cs pos g0 topk = none := by
  cases hm : matchRe mergeUlRE cs pos g0 topk with
  | none => rfl
  | some r =>
    rw [begins_newline_drop (t := "</ul>".data) (matchRe_seq_str_begins hm)] at h
    exact absurd h (by simp)

theorem matchRe_mergeOl_none {cs : List Char}
    (h : containsSeq "</ol>".data cs = false) (pos : Nat) :
    matchRe mergeOlRE cs pos g0 topk = none := by
  cases hm : matchRe mergeOlRE cs pos g0 topk with
  | none => rfl
  | some r =>
    rw [begins_newline_drop (t := "</ol>".data) (matchRe_seq_str_begins hm)] at h
    exact absurd h (by simp)

theorem matchRe_hdr_none {cs : List Char} {i : Nat} (hi : 1 ≤ i)
    (h : '#' ∉ cs) (pos : Nat) :
    matchRe (hdrRE i) cs pos g0 topk = none := by
  obtain ⟨j, rfl⟩ : ∃ j, i = j + 1 := ⟨i - 1, by omega⟩
  have hrest : ∀ (cs1 : List Char) (pos1 : Nat) (g1 : GMap)
      (k : List Char → Nat → GMap → Option (Nat × GMap)),
      '#' ∉ cs1 →
      matchRe (.seq (.grp 2 (strRE (List.replicate (j + 1) '#')))
        (.seq (.plus isHSpace) (.grp 3 (.plus notNL)))) cs1 pos1 g1 k = none := by
    intro cs1 pos1 g1 k h1
    cases hm : matchRe (.seq (.grp 2 (strRE (List.replicate (j + 1) '#')))
        (.seq (.plus isHSpace) (.grp 3 (.plus notNL)))) cs1 pos1 g1 k with
    | none => rfl
    | some r =>
      exfalso
      apply h1
      have hb : beginsWith (List.replicate (j + 1) '#') cs1 = true :=
        matchRe_strRE_begins _ cs1 pos1 g1 _ r hm
      rw [List.replicate_succ] at hb
      exact begins_cons_mem hb
  cases cs with
  | nil =>
    have hunf : matchRe (hdrRE (j + 1)) [] pos g0 topk =
        (match (if pos = 0 then
            matchRe (.seq (.grp 2 (strRE (List.replicate (j + 1) '#')))
              (.seq (.plus isHSpace) (.grp 3 (.plus notNL)))) [] pos
              (gset 1 (([] : List Char).take (pos - pos)) g0) topk
          else none) with
        | some r => some r
        | none => none) := rfl
    rw [hunf, hrest [] pos _ _ h]
    simp
  | cons c t =>
    have ht : '#' ∉ t := fun x => h (List.mem_cons_of_mem c x)
    have hunf : matchRe (hdrRE (j + 1)) (c :: t) pos g0 topk =
        (match (if pos = 0 then
            matchRe (.seq (.grp 2 (strRE (List.replicate (j + 1) '#')))
              (.seq (.plus isHSpace) (.grp 3 (.plus notNL)))) (c :: t) pos
              (gset 1 ((c :: t).take (pos - pos)) g0) topk
          else none) with
        | some r => some r
        | none =>
            if c = '\n' then
              matchRe (.seq (.grp 2 (strRE (List.replicate (j + 1) '#')))
                (.seq (.plus isHSpace) (.grp 3 (.plus notNL)))) t (pos + 1)
                (gset 1 ((c :: t).take (pos + 1 - pos)) g0) topk
            else none) := rfl
    rw [hunf, hrest (c :: t) pos _ _ h, hrest t (pos + 1) _ _ ht]
    simp

/-! ### Stage-level no-op theorems -/

theorem notMem_tail {a c : Char} {t : List Char} (h : a ∉ c :: t) : a ∉ t :=
  fun x => h (List.mem_cons_of_mem c x)

theorem boldL_id {cs : List Char} (h : '*' ∉ cs) : boldL cs = cs :=
  reSub_id (fun l => '*' ∉ l) (fun _ _ => notMem_tail)
    (fun _ pos hP => matchRe_bold_none hP pos) h

theorem italicsL_id {cs : List Char} (h : '*' ∉ cs) : italicsL cs = cs :=
  reSub_id (fun l => '*' ∉ l) (fun _ _ => notMem_tail)
    (fun _ pos hP => matchRe_ital_none hP pos) h

theorem ulWrapStep_id {cs : List Char}
    (h1 : '-' ∉ cs) (h2 : '+' ∉ cs) (h3 : '*' ∉ cs) : ulWrapStep cs = cs :=
  reSub_id (fun l => '-' ∉ l ∧ '+' ∉ l ∧ '*' ∉ l)
    (fun _ _ hP => ⟨notMem_tail hP.1, notMem_tail hP.2.1, notMem_tail hP.2.2⟩)
    (fun _ pos hP => matchRe_ul_none hP.1 hP.2.1 hP.2.2 pos) ⟨h1, h2, h3⟩

theorem olWrapStep_id {cs : List Char} (h : hasOlMark cs = false) : olWrapStep cs = cs :=
  reSub_id (fun l => hasOlMark l = false) (fun _ _ => hasOlMark_tail)
    (fun _ pos hP => matchRe_ol_none hP pos) h

theorem sepUlOlStep_id {cs : List Char}
    (h : containsSeq "</ul>".data cs = false) : sepUlOlStep cs = cs :=
  reSub_id (fun l => containsSeq "</ul>".data l = false) (fun _ _ => containsSeq_tail)
    (fun _ pos hP => matchRe_sepUlOl_none hP pos) h

theorem sepOlUlStep_id {cs : List Char}
    (h : containsSeq "</ol>".data cs = false) : sepOlUlStep cs = cs :=
  reSub_id (fun l => containsSeq "</ol>".data l = false) (fun _ _ => containsSeq_tail)
    (fun _ pos hP => matchRe_sepOlUl_none hP pos) h

theorem ulMergeStep_id {cs : List Char}
    (h : containsSeq "</ul>".data cs = false) : ulMergeStep cs = cs :=
  reSub_id (fun l => containsSeq "</ul>".data l = false) (fun _ _ => containsSeq_tail)
    (fun _ pos hP => matchRe_mergeUl_none hP pos) h

theorem olMergeStep_id {cs : List Char}
    (h : containsSeq "</ol>".data cs = false) : olMergeStep cs = cs :=
  reSub_id (fun l => containsSeq "</ol>".data l = false) (fun _ _ => containsSeq_tail)
    (fun _ pos hP => matchRe_mergeOl_none hP pos) h

theorem listsL_id {cs : List Char}
    (h1 : '-' ∉ cs) (h2 : '+' ∉ cs) (h3 : '*' ∉ cs)
    (h4 : hasOlMark cs = false)
    (h5 : containsSeq "</ul>".data cs = false)
    (h6 : containsSeq "</ol>".data cs = false) : listsL cs = cs := by
  rw [listsL, ulWrapStep_id h1 h2 h3, olWrapStep_id h4, sepUlOlStep_id h5,
    sepOlUlStep_id h6, ulMergeStep_id h5, olMergeStep_id h6]

theorem headersL_id {cs : List Char} (h : '#' ∉ cs) : headersL cs = cs := by
  have hone : ∀ (i : Nat), 1 ≤ i → ∀ (l : List Char), '#' ∉ l →
      reSub (hdrRE i) (hdrRepl i) l = l := by
    intro i hi l hl
    exact reSub_id (fun l2 => '#' ∉ l2) (fun _ _ => notMem_tail)
      (fun _ pos hP => matchRe_hdr_none hi hP pos) hl
  simp only [headersL, List.foldl]
  rw [hone 6 (by omega) _ h, hone 5 (by omega) _ h, hone 4 (by omega) _ h,
    hone 3 (by omega) _ h, hone 2 (by omega) _ h, hone 1 (by omega) _ h]

theorem tryDown1_exact' {k : List Char → Nat → GMap → Option (Nat × GMap)}
    {cs : List Char} {pos : Nat} {g : GMap} {r : Nat × GMap} (i : Nat) (hi : 1 ≤ i)
    (h : k (cs.drop i) (pos + i) g = some r) : tryDown1 k cs pos g i = some r := by
  obtain ⟨j, rfl⟩ : ∃ j, i = j + 1 := ⟨i - 1, by omega⟩
  exact tryDown1_exact j h

/-- One scanning step of `subAux` when a non-empty match is found at the
current position. -/
theorem subAux_cons_some {r : RE} {repl : GMap → List Char} {fuel : Nat}
    {c : Char} {rest : List Char} {pos pos2 : Nat} {g : GMap}
    (h : matchRe r (c :: rest) pos g0 topk = some (pos2, g)) (hpos : pos2 - pos ≠ 0) :
    subAux r repl (fuel + 1) (c :: rest) pos
      = repl g ++ subAux r repl fuel (rest.drop (pos2 - pos - 1)) pos2 := by
  simp [subAux, h, hpos]

/-- One scanning step of `subAux` when no match is found at the current
position. -/
theorem subAux_cons_none {r : RE} {repl : GMap → List Char} {fuel : Nat}
    {c : Char} {rest : List Char} {pos : Nat}
    (h : matchRe r (c :: rest) pos g0 topk = none) :
    subAux r repl (fuel + 1) (c :: rest) pos = c :: subAux r repl fuel rest (pos + 1) := by
  simp [subAux, h]

/-! ### Greedy behaviour of the bold pass
`\*\*([^\n]+)\*\*` is greedy: from the first `**` opener the capture runs to
the **last** `**` closer on the line. -/

theorem matchRe_bold_greedy (t : List Char) (hne : 1 ≤ t.length)
    (hnl : '\n' ∉ t) :
    matchRe boldRE ('*' :: '*' :: (t ++ ['*', '*'])) 0 g0 topk
      = some (t.length + 4, gset 1 t g0) := by
  have hunf : matchRe boldRE ('*' :: '*' :: (t ++ ['*', '*'])) 0 g0 topk =
      tryDown1
        (fun cs1 pos1 g1 =>
          matchRe (strRE "**".data) cs1 pos1
            (gset 1 ((t ++ ['*', '*']).take (pos1 - 2)) g1) topk)
        (t ++ ['*', '*']) 2 g0 ((t ++ ['*', '*']).takeWhile notNL).length := rfl
  have hall : ∀ c ∈ t ++ ['*', '*'], notNL c = true := by
    intro c hc
    simp only [notNL, bne_iff_ne, ne_eq]
    intro e
    subst e
    rcases List.mem_append.mp hc with h1 | h1
    · exact hnl h1
    · simp at h1
  have htk : ((t ++ ['*', '*']).takeWhile notNL).length = t.length + 2 := by
    rw [List.takeWhile_eq_self_iff.mpr hall]
    simp
  have hd2 : (t ++ ['*', '*']).drop (t.length + 2) = [] := by
    rw [List.drop_append]; rfl
  have hd1 : (t ++ ['*', '*']).drop (t.length + 1) = ['*'] := by
    rw [List.drop_append]; rfl
  have hk0 : ∀ (pos1 : Nat) (g1 : GMap), matchRe (strRE "**".data) [] pos1 g1 topk = none :=
    fun _ _ => rfl
  have hk1 : ∀ (pos1 : Nat) (g1 : GMap), matchRe (strRE "**".data) ['*'] pos1 g1 topk = none :=
    fun _ _ => rfl
  have hk2 : ∀ (pos1 : Nat) (g1 : GMap),
      matchRe (strRE "**".data) ['*', '*'] pos1 g1 topk = some (pos1 + 1 + 1, g1) :=
    fun _ _ => rfl
  rw [hunf, htk]
  have e1 : t.length + 2 = (t.length + 1) + 1 := by omega
  rw [e1, tryDown1_step (t.length + 1)
    (by rw [show t.length + 1 + 1 = t.length + 2 from by omega, hd2]; exact hk0 _ _)]
  rw [tryDown1_step t.length (by rw [hd1]; exact hk1 _ _)]
  apply tryDown1_exact' t.length hne
  rw [List.drop_left, hk2]
  rw [show 2 + t.length - 2 = t.length from by omega, List.take_left]
  rw [show 2 + t.length + 1 + 1 = t.length + 4 from by omega]

theorem boldL_greedy (t : List Char) (hne : t ≠ []) (hnl : '\n' ∉ t) :
    boldL (['*', '*'] ++ t ++ ['*', '*']) = "<strong>".data ++ t ++ "</strong>".data := by
  have hlen : 1 ≤ t.length := by
    cases t with
    | nil => exact absurd rfl hne
    | cons a t' => simp
  have hmatch := matchRe_bold_greedy t hlen hnl
  have hin : ['*', '*'] ++ t ++ ['*', '*'] = '*' :: '*' :: (t ++ ['*', '*']) := by simp
  rw [boldL, reSub, hin]
  rw [subAux_cons_some hmatch (by omega)]
  rw [show ('*' :: (t ++ ['*', '*'])).drop (t.length + 4 - 0 - 1) = [] from
    List.drop_eq_nil_of_le (by simp)]
  rw [subAux_nil_none (by rfl) _]
  simp [boldRepl, gset]

/-! ### The merge passes delete everything between the two tags
`</ul>\n(.*)<ul>` (resp. `</ol>\n(.*)<ol>`) is replaced by a bare newline:
the group — any run of non-newline characters standing between the closing
and the opening tag — is dropped from the output. -/

theorem ulMergeStep_deletes (t : List Char) (hnl : '\n' ∉ t) :
    ulMergeStep ("</ul>\n".data ++ t ++ "<ul>".data) = ['\n'] := by
  have hall : ∀ c ∈ t ++ "<ul>".data, notNL c = true := by
    intro c hc
    simp only [notNL, bne_iff_ne, ne_eq]
    intro e
    subst e
    rcases List.mem_append.mp hc with h1 | h1
    · exact hnl h1
    · simp at h1
  have htk : ((t ++ "<ul>".data).takeWhile notNL).length = t.length + 4 := by
    rw [List.takeWhile_eq_self_iff.mpr hall]
    simp
  have hkA : ∀ (p : Nat) (g : GMap), matchRe (strRE "<ul>".data) [] p g topk = none :=
    fun _ _ => rfl
  have hkB : ∀ (p : Nat) (g : GMap), matchRe (strRE "<ul>".data) ['>'] p g topk = none :=
    fun _ _ => rfl
  have hkC : ∀ (p : Nat) (g : GMap), matchRe (strRE "<ul>".data) ['l', '>'] p g topk = none :=
    fun _ _ => rfl
  have hkD : ∀ (p : Nat) (g : GMap),
      matchRe (strRE "<ul>".data) ['u', 'l', '>'] p g topk = none :=
    fun _ _ => rfl
  have hkE : ∀ (p : Nat) (g : GMap),
      matchRe (strRE "<ul>".data) "<ul>".data p g topk = some (p + 1 + 1 + 1 + 1, g) :=
    fun _ _ => rfl
  have hmatch : matchRe mergeUlRE ('<' :: '/' :: 'u' :: 'l' :: '>' :: '\n' ::
      (t ++ "<ul>".data)) 0 g0 topk = some (t.length + 10, gset 1 t g0) := by
    have hunf : matchRe mergeUlRE ('<' :: '/' :: 'u' :: 'l' :: '>' :: '\n' ::
        (t ++ "<ul>".data)) 0 g0 topk =
        tryDown
          (fun cs1 pos1 g1 =>
            matchRe (strRE "<ul>".data) cs1 pos1
              (gset 1 ((t ++ "<ul>".data).take (pos1 - 6)) g1) topk)
          (t ++ "<ul>".data) 6 g0 ((t ++ "<ul>".data).takeWhile notNL).length := rfl
    rw [hunf, htk]
    rw [show t.length + 4 = t.length + 3 + 1 from by omega, tryDown_step (t.length + 3)
      (by rw [show t.length + 3 + 1 = t.length + 4 from by omega, List.drop_append]
          exact hkA _ _)]
    rw [show t.length + 3 = t.length + 2 + 1 from by omega, tryDown_step (t.length + 2)
      (by rw [show t.length + 2 + 1 = t.length + 3 from by omega, List.drop_append]
          exact hkB _ _)]
    rw [show t.length + 2 = t.length + 1 + 1 from by omega, tryDown_step (t.length + 1)
      (by rw [show t.length + 1 + 1 = t.length + 2 from by omega, List.drop_append]
          exact hkC _ _)]
    rw [tryDown_step t.length (by rw [List.drop_append]; exact hkD _ _)]
    apply tryDown_exact t.length
    rw [List.drop_left, hkE]
    rw [show 6 + t.length - 6 = t.length from by omega, List.take_left]
    rw [show 6 + t.length + 1 + 1 + 1 + 1 = t.length + 10 from by omega]
  have hin : "</ul>\n".data ++ t ++ "<ul>".data
      = '<' :: '/' :: 'u' :: 'l' :: '>' :: '\n' :: (t ++ "<ul>".data) := rfl
  rw [ulMergeStep, reSub, hin]
  rw [subAux_cons_some hmatch (by omega)]
  rw [show ('/' :: 'u' :: 'l' :: '>' :: '\n' :: (t ++ "<ul>".data)).drop
      (t.length + 10 - 0 - 1) = [] from List.drop_eq_nil_of_le (by simp)]
  rw [subAux_nil_none (by rfl) _]
  simp [nlRepl]

theorem olMergeStep_deletes (t : List Char) (hnl : '\n' ∉ t) :
    olMergeStep ("</ol>\n".data ++ t ++ "<ol>".data) = ['\n'] := by
  have hall : ∀ c ∈ t ++ "<ol>".data, notNL c = true := by
    intro c hc
    simp only [notNL, bne_iff_ne, ne_eq]
    intro e
    subst e
    rcases List.mem_append.mp hc with h1 | h1
    · exact hnl h1
    · simp at h1
  have htk : ((t ++ "<ol>".data).takeWhile notNL).length = t.length + 4 := by
    rw [List.takeWhile_eq_self_iff.mpr hall]
    simp
  have hkA : ∀ (p : Nat) (g : GMap), matchRe (strRE "<ol>".data) [] p g topk = none :=
    fun _ _ => rfl
  have hkB : ∀ (p : Nat) (g : GMap), matchRe (strRE "<ol>".data) ['>'] p g topk = none :=
    fun _ _ => rfl
  have hkC : ∀ (p : Nat) (g : GMap), matchRe (strRE "<ol>".data) ['l', '>'] p g topk = none :=
    fun _ _ => rfl
  have hkD : ∀ (p : Nat) (g : GMap),
      matchRe (strRE "<ol>".data) ['o', 'l', '>'] p g topk = none :=
    fun _ _ => rfl
  have hkE : ∀ (p : Nat) (g : GMap),
      matchRe (strRE "<ol>".data) "<ol>".data p g topk = some (p + 1 + 1 + 1 + 1, g) :=
    fun _ _ => rfl
  have hmatch : matchRe mergeOlRE ('<' :: '/' :: 'o' :: 'l' :: '>' :: '\n' ::
      (t ++ "<ol>".data)) 0 g0 topk = some (t.length + 10, gset 1 t g0) := by
    have hunf : matchRe mergeOlRE ('<' :: '/' :: 'o' :: 'l' :: '>' :: '\n' ::
        (t ++ "<ol>".data)) 0 g0 topk =
        tryDown
          (fun cs1 pos1 g1 =>
            matchRe (strRE "<ol>".data) cs1 pos1
              (gset 1 ((t ++ "<ol>".data).take (pos1 - 6)) g1) topk)
          (t ++ "<ol>".data) 6 g0 ((t ++ "<ol>".data).takeWhile notNL).length := rfl
    rw [hunf, htk]
    rw [show t.length + 4 = t.length + 3 + 1 from by omega, tryDown_step (t.length + 3)
      (by rw [show t.length + 3 + 1 = t.length + 4 from by omega, List.drop_append]
          exact hkA _ _)]
    rw [show t.length + 3 = t.length + 2 + 1 from by omega, tryDown_step (t.length + 2)
      (by rw [show t.length + 2 + 1 = t.length + 3 from by omega, List.drop_append]
          exact hkB _ _)]
    rw [show t.length + 2 = t.length + 1 + 1 from by omega, tryDown_step (t.length + 1)
      (by rw [show t.length + 1 + 1 = t.length + 2 from by omega, List.drop_append]
          exact hkC _ _)]
    rw [tryDown_step t.length (by rw [List.drop_append]; exact hkD _ _)]
    apply tryDown_exact t.length
    rw [List.drop_left, hkE]
    rw [show 6 + t.length - 6 = t.length from by omega, List.take_left]
    rw [show 6 + t.length + 1 + 1 + 1 + 1 = t.length + 10 from by omega]
  have hin : "</ol>\n".data ++ t ++ "<ol>".data
      = '<' :: '/' :: 'o' :: 'l' :: '>' :: '\n' :: (t ++ "<ol>".data) := rfl
  rw [olMergeStep, reSub, hin]
  rw [subAux_cons_some hmatch (by omega)]
  rw [show ('/' :: 'o' :: 'l' :: '>' :: '\n' :: (t ++ "<ol>".data)).drop
      (t.length + 10 - 0 - 1) = [] from List.drop_eq_nil_of_le (by simp)]
  rw [subAux_nil_none (by rfl) _]
  simp [nlRepl]

/-! ## Claim theorems -/

/-- C1 (counterexample): the bold pattern `\*\*([^\n]+)\*\*` is greedy, not
lazy, so `'**a** x **b**'` produces a single strong element spanning from the
first opener to the last closer, not two separate strong elements as the
claim's shortest-span reading predicts. -/
theorem c1_counterexample :
    bold "**a** x **b**" = "<strong>a** x **b</strong>" ∧
    bold "**a** x **b**" ≠ "<strong>a</strong> x <strong>b</strong>" := by
  decide

/-- C1 (amended): the bold stage replaces the longest span between the first
double-asterisk opener and the last double-asterisk closer on a line with
strong-emphasis markup around the inner text; the match never crosses a
newline.  In particular `'**a** x **b**'` yields one strong element containing
`a** x **b`. -/
theorem c1_bold_longest :
    (∀ t : List Char, t ≠ [] → '\n' ∉ t →
      boldL (['*', '*'] ++ t ++ ['*', '*']) = "<strong>".data ++ t ++ "</strong>".data) ∧
    bold "**a** x **b**" = "<strong>a** x **b</strong>" :=
  ⟨boldL_greedy, by decide⟩

/-- C1 witness: the amended theorem at the inner text `a** x **b`. -/
theorem c1_bold_longest_witness :
    boldL (['*', '*'] ++ "a** x **b".data ++ ['*', '*'])
      = "<strong>".data ++ "a** x **b".data ++ "</strong>".data :=
  c1_bold_longest.1 "a** x **b".data (by decide) (by decide)

/-- C2 (counterexample): the list patterns are unanchored, so a marker plus
space in the middle of a line is treated as a list item: `'a - b'` and
`'pi is 3. 14'` are rewritten, contradicting the claim that they are left
alone. -/
theorem c2_counterexample :
    lists "a - b" = "a <ul><li>b</li></ul>" ∧
    lists "a - b" ≠ "a - b" ∧
    lists "pi is 3. 14" = "pi is <ol><li>14</li></ol>" ∧
    lists "pi is 3. 14" ≠ "pi is 3. 14" := by
  decide

/-- C2 (amended): the lists stage wraps from a marker-plus-space occurrence to
the end of the line, wherever the marker occurs: a line-initial marker wraps
the whole line, and a mid-line `'- '` or `'3. '` also fires, wrapping the rest
of the line and leaving the text before the marker in place. -/
theorem c2_lists_unanchored :
    lists "- a" = "<ul><li>a</li></ul>" ∧
    lists "1. a" = "<ol><li>a</li></ol>" ∧
    lists "x\n- a" = "x\n<ul><li>a</li></ul>" ∧
    lists "a - b" = "a <ul><li>b</li></ul>" ∧
    lists "pi is 3. 14" = "pi is <ol><li>14</li></ol>" := by
  decide

/-- C3 (counterexample): the header text group `([^\n]+)` is greedy and keeps
trailing spaces and tabs, so `headers('# hello   ')` produces a heading whose
inner text still ends with the three spaces, contradicting the claim that
both sides are trimmed. -/
theorem c3_counterexample :
    headers "# hello   " = "<h1>hello   </h1>" ∧
    headers "# hello   " ≠ "<h1>hello</h1>" := by
  decide

/-- C3 (amended): for header lines of level 1 through 6 the headers stage
wraps the text in the level-matching heading tag, trimming the run of spaces
and tabs between the `#` characters and the text, but keeping any trailing
spaces or tabs inside the heading text. -/
theorem c3_headers_trim :
    headers "# hello" = "<h1>hello</h1>" ∧
    headers "## hello" = "<h2>hello</h2>" ∧
    headers "###  \t hello" = "<h3>hello</h3>" ∧
    headers "####\thello" = "<h4>hello</h4>" ∧
    headers "#####\t   hello" = "<h5>hello</h5>" ∧
    headers "######    hello" = "<h6>hello</h6>" ∧
    headers "# hello   " = "<h1>hello   </h1>" ∧
    headers "#\t\t x \t " = "<h1>x \t </h1>" := by
  decide

/-- C4: seven or more `#` characters are not a header (`'####### hello'` is
returned unchanged), while for each level 1–6 the line becomes exactly the
level-matching heading with no leftover `#` characters, because level 6 is
rewritten before level 5, down to level 1. -/
theorem c4_header_greediness :
    headers "####### hello" = "####### hello" ∧
    headers "########  x" = "########  x" ∧
    headers "# hello" = "<h1>hello</h1>" ∧
    headers "## hello" = "<h2>hello</h2>" ∧
    headers "### hello" = "<h3>hello</h3>" ∧
    headers "#### hello" = "<h4>hello</h4>" ∧
    headers "##### hello" = "<h5>hello</h5>" ∧
    headers "###### hello" = "<h6>hello</h6>" := by
  decide

/-- C5: `html('***hello***')` nests strong around emphasis (bold runs before
italics in the pipeline), never the reverse nesting. -/
theorem c5_bold_before_italics :
    html "***hello***" = "<article><p><strong><em>hello</em></strong></p></article>" ∧
    html "***hello***" ≠ "<article><p><em><strong>hello</strong></em></p></article>" := by
  decide

/-- C6 (counterexample): the input `'</ul>\n<ul>'` contains none of the
Markdown special characters named by the claim (`#`, `*`, `-`, `+`, no ordered
marker), yet the lists stage rewrites it to a bare newline, because the merge
pattern `</ul>\n(.*)<ul>` fires on it; so `html` does not merely wrap it in
paragraph and article markup. -/
theorem c6_counterexample :
    ('#' ∉ "</ul>\n<ul>".data ∧ '*' ∉ "</ul>\n<ul>".data ∧
      '-' ∉ "</ul>\n<ul>".data ∧ '+' ∉ "</ul>\n<ul>".data ∧
      hasOlMark "</ul>\n<ul>".data = false) ∧
    lists "</ul>\n<ul>" = "\n" ∧
    html "</ul>\n<ul>" = "<article><p>\n</p></article>" ∧
    html "</ul>\n<ul>" ≠ "<article><p></ul>\n<ul></p></article>" := by
  decide

/-- C6 (amended): for every buffer containing none of `#`, `*`, `-`, `+`, no
ordered marker (digit, `'.'`, `' '` in a row), and no closing list tag text
(`</ul>` or `</ol>`), the headers, bold, italics and lists stages return it
unchanged, so `html` is the buffer passed through paragraph markup alone,
inside the article tag. -/
theorem c6_plain_passthrough (cs : List Char)
    (h1 : '#' ∉ cs) (h2 : '*' ∉ cs) (h3 : '-' ∉ cs) (h4 : '+' ∉ cs)
    (h5 : hasOlMark cs = false)
    (h6 : containsSeq "</ul>".data cs = false)
    (h7 : containsSeq "</ol>".data cs = false) :
    headersL cs = cs ∧ boldL cs = cs ∧ italicsL cs = cs ∧ listsL cs = cs ∧
      htmlL cs = "<article>".data ++ paragraphsL cs ++ "</article>".data := by
  refine ⟨headersL_id h1, boldL_id h2, italicsL_id h2,
    listsL_id h3 h4 h2 h5 h6 h7, ?_⟩
  rw [htmlL, headersL_id h1, boldL_id h2, italicsL_id h2, listsL_id h3 h4 h2 h5 h6 h7]

/-- C6 witness: the amended theorem at a plain two-paragraph buffer. -/
theorem c6_plain_passthrough_witness :
    headersL "hello, world!\n\ngoodbye.".data = "hello, world!\n\ngoodbye.".data ∧
    boldL "hello, world!\n\ngoodbye.".data = "hello, world!\n\ngoodbye.".data ∧
    italicsL "hello, world!\n\ngoodbye.".data = "hello, world!\n\ngoodbye.".data ∧
    listsL "hello, world!\n\ngoodbye.".data = "hello, world!\n\ngoodbye.".data ∧
    htmlL "hello, world!\n\ngoodbye.".data
      = "<article>".data ++ paragraphsL "hello, world!\n\ngoodbye.".data ++ "</article>".data :=
  c6_plain_passthrough "hello, world!\n\ngoodbye.".data (by decide) (by decide)
    (by decide) (by decide) (by decide) (by decide) (by decide)

/-- C7: two directly-adjacent unordered-item lines, with any of the three
markers on each line, produce one list container holding the two items,
not two adjacent containers. -/
theorem c7_list_merge :
    (∀ m1 m2 : Char, (m1 = '-' ∨ m1 = '+' ∨ m1 = '*') →
      (m2 = '-' ∨ m2 = '+' ∨ m2 = '*') →
      listsL (m1 :: ' ' :: "i1".data ++ '\n' :: m2 :: ' ' :: "i2".data)
        = "<ul><li>i1</li>\n<li>i2</li></ul>".data) ∧
    lists "- first item\n* second item"
      = "<ul><li>first item</li>\n<li>second item</li></ul>" := by
  constructor
  · intro m1 m2 h1 h2
    rcases h1 with rfl | rfl | rfl <;> rcases h2 with rfl | rfl | rfl <;> decide
  · decide

/-- C7 witness: the merge theorem at markers `-` and `+`. -/
theorem c7_list_merge_witness :
    listsL ('-' :: ' ' :: "i1".data ++ '\n' :: '+' :: ' ' :: "i2".data)
      = "<ul><li>i1</li>\n<li>i2</li></ul>".data :=
  c7_list_merge.1 '-' '+' (Or.inl rfl) (Or.inr (Or.inl rfl))

/-- C8: an unordered run, an ordered run and an unordered run, directly
adjacent line by line, produce three distinct list containers separated by
blank lines, preserving item order within each container. -/
theorem c8_mixed_lists :
    lists "- P1\n78. P2\n* P3"
      = "<ul><li>P1</li></ul>\n\n<ol><li>P2</li></ol>\n\n<ul><li>P3</li></ul>" ∧
    lists "- a\n+ b\n1. c\n2. d\n- e"
      = "<ul><li>a</li>\n<li>b</li></ul>\n\n<ol><li>c</li>\n<li>d</li></ol>\n\n<ul><li>e</li></ul>" := by
  decide

/-- C9: the paragraphs stage wraps the whole buffer in one outer paragraph
tag pair and collapses every run of blank or whitespace-only lines into a
single boundary: the reference input splits into exactly the three blocks
`P1`, `P2\nP2` and `P3`. -/
theorem c9_paragraphs :
    (∀ cs : List Char, paragraphsL cs = "<p>".data ++ innerParasL cs ++ "</p>".data) ∧
    paragraphs "P1\n\nP2\nP2\n    \t   \n\n\n  \t\nP3"
      = "<p>P1</p>\n<p>P2\nP2</p>\n<p>P3</p>" :=
  ⟨fun _ => rfl, by decide⟩

/-- C10: whenever a closing list tag, a newline, a run of non-newline
characters and an opening tag of the same list type stand together, the merge
pass replaces the whole matched region with a single newline, deleting any
text that stood between the two tags. -/
theorem c10_merge_deletes (t : List Char) (hnl : '\n' ∉ t) :
    ulMergeStep ("</ul>\n".data ++ t ++ "<ul>".data) = ['\n'] ∧
    olMergeStep ("</ol>\n".data ++ t ++ "<ol>".data) = ['\n'] :=
  ⟨ulMergeStep_deletes t hnl, olMergeStep_deletes t hnl⟩

/-- C10 witness: the merge theorem with the text `abc` between the tags. -/
theorem c10_merge_deletes_witness :
    ulMergeStep ("</ul>\n".data ++ "abc".data ++ "<ul>".data) = ['\n'] ∧
    olMergeStep ("</ol>\n".data ++ "abc".data ++ "<ol>".data) = ['\n'] :=
  c10_merge_deletes "abc".data (by decide)

end PyMark
